import Mathlib

/-!
Formal model of the admin two-factor authentication subsystem of the
flowboard repository: the PL/pgSQL migration defining `base32_encode`,
`base32_decode`, `int8_to_bytea`, `admin_totp_is_valid`,
`admin_take_recovery_code`, `admin_login`, `admin_verify_two_factor`,
`admin_start_two_factor`, `admin_confirm_two_factor` and
`admin_disable_two_factor`.

Modelling conventions:
* PostgreSQL `text` values are modelled as `List Char` (`Text` below);
  nullable columns and arguments are `Option`-typed.
* `bytea` values are `List Nat` with every byte `< 256`.
* `bigint` arithmetic: the PostgreSQL shift operators wrap on the 64-bit
  two's complement representation, so shifts are followed by `% 2 ^ 64`.
  Additions in the codec never overflow (the shifted buffer has its low
  bits zero, and the added value fits in them), so `+` is exact.
* External pgcrypto primitives (`hmac`, `crypt`) and the clock (`now()` as
  Unix seconds) are not part of this repository; they are passed as
  explicit parameters.  Random generation (`gen_random_bytes`,
  `gen_salt`) is likewise passed in as explicit data.
* Database tables are lists of rows; `SELECT ... INTO` takes the first
  matching row (`List.find?`), `UPDATE ... WHERE` maps over the list.
* A `RAISE EXCEPTION` is modelled as `Except.error`.
-/

/-- PostgreSQL `text` is modelled as a list of characters. -/
abbrev Text := List Char

/-- PostgreSQL `trim(s)` (btrim with the default space character):
removes leading and trailing spaces. -/
def pgTrim (s : Text) : Text :=
  ((s.dropWhile (fun c => c == ' ')).reverse.dropWhile (fun c => c == ' ')).reverse

/-- PostgreSQL `lpad(s, n, c)`: left-pads `s` with `c` to length `n`, or
truncates `s` on the right to length `n` when it is longer. -/
def pgLpad (s : Text) (n : Nat) (c : Char) : Text :=
  if n ≤ s.length then s.take n else List.replicate (n - s.length) c ++ s

/-- The decimal rendering of a natural number, as PostgreSQL's
`value::text` produces for non-negative integers. -/
def natText (n : Nat) : Text :=
  Nat.toDigits 10 n

/-- The RFC 4648 base32 alphabet used by the migration:
`ABCDEFGHIJKLMNOPQRSTUVWXYZ234567`. -/
def b32alphabet : Text :=
  "ABCDEFGHIJKLMNOPQRSTUVWXYZ234567".toList

/-- The character class `[A-Z2-7]` of the cleaning regexp in
`base32_decode`, expressed on code points: 65..90 is `A`..`Z` and
50..55 is `2`..`7`. -/
def isBase32Char (c : Char) : Bool :=
  (65 ≤ c.toNat && c.toNat ≤ 90) || (50 ≤ c.toNat && c.toNat ≤ 55)

/-- PostgreSQL `position(c IN s)`: the 1-based index of the first
occurrence of `c` in `s`, or `0` when `c` does not occur. -/
def pgPosition (c : Char) (s : Text) : Nat :=
  match s.findIdx? (fun x => x == c) with
  | some i => i + 1
  | none => 0

/-- The character `substr(alphabet, v + 1, 1)` for `v < 32`: the alphabet character of
a 5-bit value. -/
def b32encChar (v : Nat) : Char :=
  b32alphabet.getD v 'A'

/-- The inner `WHILE bits >= 5` loop of `base32_encode`: emits 5-bit
groups from the top of the pending buffer. -/
def b32drain (buffer : Nat) : Nat → Text → Nat × Text
  | bits + 5, out => b32drain buffer bits (out ++ [b32encChar ((buffer >>> bits) &&& 31)])
  | bits, out => (bits, out)

/-- The byte loop of `base32_encode` (buffer / bit-count state passing,
finishing with the partial-group flush after the loop). -/
def b32encodeGo : List Nat → Nat → Nat → Text → Text
  | [], buffer, bits, out =>
      if 0 < bits then out ++ [b32encChar (((buffer <<< (5 - bits)) % 2 ^ 64) &&& 31)] else out
  | v :: rest, buffer, bits, out =>
      let buffer' := ((buffer <<< 8) % 2 ^ 64) + v
      let s := b32drain buffer' (bits + 8) out
      b32encodeGo rest buffer' s.1 s.2

/-- The function `base32_encode(input bytea)`. -/
def base32_encode (input : Option (List Nat)) : Text :=
  match input with
  | none => []
  | some bs => if bs.length = 0 then [] else b32encodeGo bs 0 0 []

/-- The cleaning step of `base32_decode`:
`regexp_replace(upper(coalesce(input, '')), '[^A-Z2-7]', '', 'g')`. -/
def b32clean (s : Text) : Text :=
  (s.map Char.toUpper).filter isBase32Char

/-- The inner `WHILE bits >= 8` loop of `base32_decode`: emits bytes from
the top of the pending buffer. -/
def b32ddrain (buffer : Nat) : Nat → List Nat → Nat × List Nat
  | bits + 8, out => b32ddrain buffer bits (out ++ [(buffer >>> bits) &&& 255])
  | bits, out => (bits, out)

/-- The character loop of `base32_decode`.  A character whose
`position` in the alphabet is zero raises
`Invalid base32 character` (modelled as `Except.error`). -/
def b32decodeGo : Text → Nat → Nat → List Nat → Except Text (List Nat)
  | [], _, _, out => .ok out
  | ch :: rest, buffer, bits, out =>
      let value : Int := (pgPosition ch b32alphabet : Int) - 1
      if value < 0 then
        .error ("Invalid base32 character: ".toList ++ [ch])
      else
        let buffer' := ((buffer <<< 5) % 2 ^ 64) + value.toNat
        let s := b32ddrain buffer' (bits + 5) out
        b32decodeGo rest buffer' s.1 s.2

/-- The function `base32_decode(input text)`. -/
def base32_decode (input : Option Text) : Except Text (List Nat) :=
  let cleaned := b32clean (input.getD [])
  if cleaned = [] then .ok [] else b32decodeGo cleaned 0 0 []

/-- The byte string produced by `base32_decode`.  The error branch of
`b32decodeGo` is unreachable (see `base32_decode_never_errors`), because
the cleaning step removes every character outside the alphabet, so this
total accessor agrees with `base32_decode` everywhere. -/
def b32decodeOk (input : Option Text) : List Nat :=
  match base32_decode input with
  | .ok bs => bs
  | .error _ => []

/-- The function `int8_to_bytea(value bigint)`: the 8-byte big-endian encoding of a
64-bit integer.  PostgreSQL's `>>` on `bigint` is an arithmetic shift of
the two's complement value and `& 255` reads the low byte of the result,
which for every shift amount `0, 8, ..., 56` equals the corresponding
byte of `value mod 2 ^ 64`. -/
def int8_to_bytea (value : Int) : List Nat :=
  let v := (value % (2 ^ 64 : Int)).toNat
  (List.range 8).map (fun j => (v >>> ((7 - j) * 8)) &&& 255)

/-- One iteration body of the drift loop of `admin_totp_is_valid`: the
6-digit one-time password for a given counter.  `hmac` is pgcrypto's
`hmac(message, key, 'sha1')`; its output is a 20-byte digest, so the
`get_byte` accesses (at indices `<= 18` and at `length - 1 = 19`) are
always in range and are modelled with `List.getD`.  The `integer`
arithmetic of `slice` wraps at 32 bits in PostgreSQL, but the final
`& 2147483647` only keeps the low 31 bits, which the wrap does not
affect, so natural-number arithmetic is exact here. -/
def admin_totp_code (hmac : List Nat → List Nat → List Nat)
    (secret_bytes : List Nat) (counter : Int) : Text :=
  let hash := hmac (int8_to_bytea counter) secret_bytes
  let offset_pos := (hash.getD (hash.length - 1) 0) &&& 15
  let slice :=
    ((((hash.getD offset_pos 0) &&& 255) <<< 24) |||
     (((hash.getD (offset_pos + 1) 0) &&& 255) <<< 16) |||
     (((hash.getD (offset_pos + 2) 0) &&& 255) <<< 8) |||
     ((hash.getD (offset_pos + 3) 0) &&& 255)) &&& 2147483647
  pgLpad (natText (slice % 1000000)) 6 '0'

/-- The function `admin_totp_is_valid(secret, code, allowed_drift)`.
`now` is the Unix time in seconds (`extract(epoch from now())`), so the
time step is `now / 30` (floor division).  The drift loop
`FOR i IN -allowed_drift..allowed_drift` is the `List.any` below; the
source returns `true` on the first matching window. -/
def admin_totp_is_valid (hmac : List Nat → List Nat → List Nat) (now : Nat)
    (secret : Option Text) (code : Option Text) (allowed_drift : Nat) : Bool :=
  match secret, code with
  | some s, some c =>
      if pgTrim c = [] then false
      else
        let secret_bytes := b32decodeOk (some s)
        if secret_bytes.length = 0 then false
        else
          let timestep : Int := ((now / 30 : Nat) : Int)
          ((List.range (2 * allowed_drift + 1)).map
              (fun k => -(allowed_drift : Int) + (k : Int))).any
            (fun i => admin_totp_code hmac secret_bytes (timestep + i) == pgTrim c)
  | _, _ => false

/-- The RFC 6238 / RFC 4226 reference value, written from the
specification's words: HMAC-SHA1 of the counter as an 8-byte big-endian
integer, dynamic truncation (low 4 bits of the last of the 20 digest
bytes select a 4-byte slice, whose top bit is masked), reduction modulo
1,000,000, left-padded with zeros to 6 digits. -/
def rfc6238_code (hmac : List Nat → List Nat → List Nat)
    (secretBytes : List Nat) (counter : Int) : Text :=
  let hash := hmac (int8_to_bytea counter) secretBytes
  let off := (hash.getD 19 0) % 16
  let word :=
    ((hash.getD off 0) % 128) * 2 ^ 24 + (hash.getD (off + 1) 0) * 2 ^ 16 +
      (hash.getD (off + 2) 0) * 2 ^ 8 + hash.getD (off + 3) 0
  pgLpad (natText (word % 1000000)) 6 '0'

/-- A row of the `admin_users` table (the columns used by the 2FA
subsystem). -/
structure AdminUser where
  id : Nat
  email : Text
  name : Text
  role : Text
  password_hash : Text
  two_factor_enabled : Bool
  two_factor_secret : Option Text
  two_factor_recovery_codes : List Text
  two_factor_temp_secret : Option Text
  two_factor_temp_recovery_codes : List Text
  two_factor_confirmed_at : Option Nat
deriving DecidableEq, Repr

/-- A row of the `admin_login_challenges` table.  Timestamps are Unix
seconds. -/
structure LoginChallenge where
  id : Nat
  admin_user_id : Nat
  created_at : Nat
  expires_at : Nat
  consumed_at : Option Nat
deriving DecidableEq, Repr

/-- The two tables the 2FA subsystem reads and writes. -/
structure DB where
  admin_users : List AdminUser
  admin_login_challenges : List LoginChallenge
deriving DecidableEq, Repr

def invalidCredentialsMsg : Text := "Invalid credentials".toList
def challengeInvalidMsg : Text := "Challenge expired or invalid".toList
def accountMissingMsg : Text := "Account not found".toList
def invalidAuthCodeMsg : Text := "Invalid authentication code".toList
def notEnabledMsg : Text := "Two-factor authentication is not enabled".toList
def noPendingSetupMsg : Text := "No pending setup found".toList
def verificationCodeInvalidMsg : Text := "Verification code is invalid".toList

/-- The update `UPDATE admin_login_challenges SET consumed_at = now() WHERE id = cid`. -/
def consumeChallenge (db : DB) (cid : Nat) (now : Nat) : DB :=
  { db with
    admin_login_challenges :=
      db.admin_login_challenges.map
        (fun c => if c.id = cid then { c with consumed_at := some now } else c) }

/-- The update `UPDATE admin_users
     SET two_factor_recovery_codes = array_remove(two_factor_recovery_codes, h)
     WHERE id = uid` (`array_remove` deletes every element equal to `h`). -/
def removeRecoveryHash (db : DB) (uid : Nat) (h : Text) : DB :=
  { db with
    admin_users :=
      db.admin_users.map
        (fun u =>
          if u.id = uid then
            { u with two_factor_recovery_codes :=
                u.two_factor_recovery_codes.filter (fun x => x ≠ h) }
          else u) }

/-- The row type returned by `admin_login`. -/
structure LoginRow where
  success : Bool
  requires_otp : Bool
  challenge_id : Option Nat
  error : Option Text
  id : Option Nat
  email : Option Text
  name : Option Text
  role : Option Text
  two_factor_enabled : Bool
deriving DecidableEq, Repr

/-- The `Invalid credentials` row of `admin_login`. -/
def loginRejectedRow : LoginRow :=
  ⟨false, false, none, some invalidCredentialsMsg, none, none, none, none, false⟩

/-- The function `admin_login(login_email, login_password)`.  `crypt` is pgcrypto's
`crypt(password, salt)`; the password check is
`password_hash <> crypt(login_password, password_hash)`.  `newId` is the
`gen_random_uuid()` primary key of a freshly inserted challenge, and
`now` the insertion time (the challenge expires after
`interval '5 minutes'` = 300 seconds). -/
def admin_login (crypt : Text → Text → Text) (now : Nat) (newId : Nat)
    (db : DB) (login_email login_password : Text) : LoginRow × DB :=
  match db.admin_users.find? (fun a => a.email == login_email) with
  | none => (loginRejectedRow, db)
  | some account =>
      if account.password_hash ≠ crypt login_password account.password_hash then
        (loginRejectedRow, db)
      else if account.two_factor_enabled = true ∧ account.two_factor_secret ≠ none then
        let ch : LoginChallenge :=
          { id := newId, admin_user_id := account.id, created_at := now,
            expires_at := now + 300, consumed_at := none }
        (⟨false, true, some newId, none, none, none, none, none,
            account.two_factor_enabled⟩,
          { db with admin_login_challenges := db.admin_login_challenges ++ [ch] })
      else
        (⟨true, false, none, none, some account.id, some account.email,
            some account.name, some account.role, account.two_factor_enabled⟩, db)

/-- The row type returned by `admin_verify_two_factor`. -/
structure VerifyRow where
  success : Bool
  error : Option Text
  id : Option Nat
  email : Option Text
  name : Option Text
  role : Option Text
  two_factor_enabled : Bool
deriving DecidableEq, Repr

/-- A failure row of `admin_verify_two_factor`. -/
def verifyRejectedRow (msg : Text) : VerifyRow :=
  ⟨false, some msg, none, none, none, none, false⟩

/-- The success row of `admin_verify_two_factor` for `account`. -/
def verifySuccessRow (account : AdminUser) : VerifyRow :=
  ⟨true, none, some account.id, some account.email, some account.name,
    some account.role, account.two_factor_enabled⟩

/-- The function `admin_verify_two_factor(challenge, otp_code)`. -/
def admin_verify_two_factor (hmac : List Nat → List Nat → List Nat)
    (crypt : Text → Text → Text) (now : Nat) (db : DB)
    (challenge : Nat) (otp_code : Option Text) : VerifyRow × DB :=
  match db.admin_login_challenges.find?
      (fun c => c.id == challenge && c.consumed_at == none
        && decide (now < c.expires_at)) with
  | none => (verifyRejectedRow challengeInvalidMsg, db)
  | some record_challenge =>
      match db.admin_users.find? (fun a => a.id == record_challenge.admin_user_id) with
      | none => (verifyRejectedRow accountMissingMsg, db)
      | some account =>
          if account.two_factor_enabled = false ∨ account.two_factor_secret = none then
            (verifySuccessRow account, consumeChallenge db record_challenge.id now)
          else if admin_totp_is_valid hmac now account.two_factor_secret otp_code 1 then
            (verifySuccessRow account, consumeChallenge db record_challenge.id now)
          else
            match account.two_factor_recovery_codes.find?
                (fun code_hash => crypt (otp_code.getD []) code_hash == code_hash) with
            | none => (verifyRejectedRow invalidAuthCodeMsg, db)
            | some matched_hash =>
                (verifySuccessRow account,
                  consumeChallenge (removeRecoveryHash db account.id matched_hash)
                    record_challenge.id now)

/-- The function `admin_take_recovery_code(user_id, attempt)`. -/
def admin_take_recovery_code (crypt : Text → Text → Text) (db : DB)
    (user_id : Nat) (attempt : Option Text) : Bool × DB :=
  match attempt with
  | none => (false, db)
  | some a =>
      if pgTrim a = [] then (false, db)
      else
        let hashes :=
          ((db.admin_users.find? (fun u => u.id == user_id)).map
            (fun u => u.two_factor_recovery_codes)).getD []
        match hashes.find? (fun code_hash => crypt (pgTrim a) code_hash == code_hash) with
        | none => (false, db)
        | some matched => (true, removeRecoveryHash db user_id matched)

/-- A lowercase hexadecimal digit, as produced by `to_hex` /
`encode(..., 'hex')`. -/
def hexDigit (n : Nat) : Char :=
  "0123456789abcdef".toList.getD n '0'

/-- PostgreSQL `encode(bs, 'hex')`: two lowercase hex digits per byte. -/
def hexText (bs : List Nat) : Text :=
  bs.foldr (fun b acc => hexDigit (b / 16) :: hexDigit (b % 16) :: acc) []

/-- PostgreSQL `upper` (ASCII letters, as relevant here). -/
def pgUpper (s : Text) : Text :=
  s.map Char.toUpper

/-- One recovery code of `admin_start_two_factor`, from 5 random bytes:
`upper(substr(encode(bytes, 'hex'), 1, 10))` grouped as
`substr(c,1,5) || '-' || substr(c,6,5)`. -/
def formatRecoveryCode (bs : List Nat) : Text :=
  let c := (pgUpper (hexText bs)).take 10
  c.take 5 ++ '-' :: (c.drop 5).take 5

/-- The function `admin_start_two_factor(login_email, login_password)`.  `rand20` is
`gen_random_bytes(20)`; `rand5s i` is the `gen_random_bytes(5)` drawn in
loop iteration `i`; `salts i` is the `gen_salt('bf')` of iteration `i`.
The credential failure is a `RAISE EXCEPTION 'Invalid credentials'`,
modelled as `Except.error`. -/
def admin_start_two_factor (crypt : Text → Text → Text) (rand20 : List Nat)
    (rand5s : Nat → List Nat) (salts : Nat → Text) (db : DB)
    (login_email login_password : Text) :
    Except Text ((Text × List Text) × DB) :=
  match db.admin_users.find? (fun a => a.email == login_email) with
  | none => .error invalidCredentialsMsg
  | some account =>
      if account.password_hash ≠ crypt login_password account.password_hash then
        .error invalidCredentialsMsg
      else
        let generated_secret := base32_encode (some rand20)
        let codes := (List.range 8).map (fun i => formatRecoveryCode (rand5s i))
        let hashed :=
          (List.range 8).map (fun i => crypt (formatRecoveryCode (rand5s i)) (salts i))
        .ok ((generated_secret, codes),
          { db with
            admin_users :=
              db.admin_users.map
                (fun u =>
                  if u.id = account.id then
                    { u with
                      two_factor_temp_secret := some generated_secret,
                      two_factor_temp_recovery_codes := hashed }
                  else u) })

/-- The function `admin_confirm_two_factor(login_email, login_password, otp_code)`.
Returns the `(success, error)` row together with the updated database. -/
def admin_confirm_two_factor (hmac : List Nat → List Nat → List Nat)
    (crypt : Text → Text → Text) (now : Nat) (db : DB)
    (login_email login_password : Text) (otp_code : Option Text) :
    (Bool × Option Text) × DB :=
  match db.admin_users.find? (fun a => a.email == login_email) with
  | none => ((false, some invalidCredentialsMsg), db)
  | some account =>
      if account.password_hash ≠ crypt login_password account.password_hash then
        ((false, some invalidCredentialsMsg), db)
      else if account.two_factor_temp_secret = none then
        ((false, some noPendingSetupMsg), db)
      else if ¬ admin_totp_is_valid hmac now account.two_factor_temp_secret otp_code 1 then
        ((false, some verificationCodeInvalidMsg), db)
      else
        ((true, none),
          { db with
            admin_users :=
              db.admin_users.map
                (fun u =>
                  if u.id = account.id then
                    { u with
                      two_factor_secret := account.two_factor_temp_secret,
                      two_factor_enabled := true,
                      two_factor_confirmed_at := some now,
                      two_factor_recovery_codes := account.two_factor_temp_recovery_codes,
                      two_factor_temp_secret := none,
                      two_factor_temp_recovery_codes := [] }
                  else u) })

/-- The function `admin_disable_two_factor(login_email, login_password, otp_code)`.
Returns the `(success, error)` row together with the updated database. -/
def admin_disable_two_factor (hmac : List Nat → List Nat → List Nat)
    (crypt : Text → Text → Text) (now : Nat) (db : DB)
    (login_email login_password : Text) (otp_code : Option Text) :
    (Bool × Option Text) × DB :=
  match db.admin_users.find? (fun a => a.email == login_email) with
  | none => ((false, some invalidCredentialsMsg), db)
  | some account =>
      if account.password_hash ≠ crypt login_password account.password_hash then
        ((false, some invalidCredentialsMsg), db)
      else if account.two_factor_enabled = false then
        ((false, some notEnabledMsg), db)
      else
        let valid0 := admin_totp_is_valid hmac now account.two_factor_secret otp_code 1
        let step :=
          if valid0 then (true, db) else admin_take_recovery_code crypt db account.id otp_code
        if step.1 = false then
          ((false, some invalidAuthCodeMsg), step.2)
        else
          ((true, none),
            { step.2 with
              admin_users :=
                step.2.admin_users.map
                  (fun u =>
                    if u.id = account.id then
                      { u with
                        two_factor_enabled := false,
                        two_factor_secret := none,
                        two_factor_recovery_codes := [],
                        two_factor_temp_secret := none,
                        two_factor_temp_recovery_codes := [] }
                    else u) })

/-! ### Concrete instances used to witness the theorems

`cryptW` is a stand-in for the bcrypt `crypt`: a plaintext `p` hashes to
`'#' :: p`, and `cryptW p h = h` exactly when `h = '#' :: p`.  `hmacW`
is a stand-in for `hmac(-, -, 'sha1')`: a constant 20-byte digest. -/

def cryptW : Text → Text → Text :=
  fun p h => if h == '#' :: p then h else '#' :: p

def hmacW : List Nat → List Nat → List Nat :=
  fun _ _ => List.replicate 20 0

def pwW : Text := "pw".toList

def emailW : Text := "admin@example.com".toList

/-- An admin account without two-factor authentication. -/
def userOffW : AdminUser :=
  { id := 1, email := emailW, name := "A".toList, role := "admin".toList,
    password_hash := '#' :: pwW,
    two_factor_enabled := false, two_factor_secret := none,
    two_factor_recovery_codes := [],
    two_factor_temp_secret := none, two_factor_temp_recovery_codes := [],
    two_factor_confirmed_at := none }

/-- The eight stored recovery-code hashes of `userOnW` (under `cryptW`,
the hash of plaintext `p` is `'#' :: p`). -/
def hashesW : List Text :=
  ["#C1".toList, "#C2".toList, "#C3".toList, "#C4".toList,
   "#C5".toList, "#C6".toList, "#C7".toList, "#C8".toList]

/-- An admin account with two-factor authentication enabled. -/
def userOnW : AdminUser :=
  { id := 1, email := emailW, name := "A".toList, role := "admin".toList,
    password_hash := '#' :: pwW,
    two_factor_enabled := true, two_factor_secret := some "AA".toList,
    two_factor_recovery_codes := hashesW,
    two_factor_temp_secret := none, two_factor_temp_recovery_codes := [],
    two_factor_confirmed_at := some 0 }

/-- An admin account with a pending (unconfirmed) enrollment. -/
def userTempW : AdminUser :=
  { id := 1, email := emailW, name := "A".toList, role := "admin".toList,
    password_hash := '#' :: pwW,
    two_factor_enabled := false, two_factor_secret := none,
    two_factor_recovery_codes := [],
    two_factor_temp_secret := some "AA".toList,
    two_factor_temp_recovery_codes := ["#C1".toList],
    two_factor_confirmed_at := none }

/-- An unconsumed challenge for account 1 expiring at time 300. -/
def chW : LoginChallenge :=
  { id := 7, admin_user_id := 1, created_at := 0, expires_at := 300,
    consumed_at := none }

def dbOffW : DB := { admin_users := [userOffW], admin_login_challenges := [chW] }

def dbOnW : DB := { admin_users := [userOnW], admin_login_challenges := [chW] }

def dbTempW : DB := { admin_users := [userTempW], admin_login_challenges := [] }

/-! ### Helper lemmas -/

theorem find?_map_of_pred {α : Type} (l : List α) (f : α → α) (p : α → Bool)
    (hp : ∀ a, p (f a) = p a) : (l.map f).find? p = (l.find? p).map f := by
  induction l with
  | nil => rfl
  | cons a t ih =>
      simp only [List.map_cons, List.find?_cons]
      rw [hp a]
      cases hpa : p a <;> simp [ih]

theorem forall₂_map_self {α : Type} (R : α → α → Prop) (l : List α) (f : α → α)
    (h : ∀ a, R a (f a)) : List.Forall₂ R l (l.map f) := by
  induction l with
  | nil => simp
  | cons a t ih => exact List.Forall₂.cons (h a) ih

theorem findIdx?_ne_none_of_mem (l : Text) (c : Char) :
    c ∈ l → l.findIdx? (fun x => x == c) ≠ none := by
  induction l with
  | nil => intro h; simp at h
  | cons a t ih =>
      intro h
      rcases List.mem_cons.mp h with h | h
      · simp [List.findIdx?_cons, h]
      · by_cases ha : a == c
        · simp [List.findIdx?_cons, ha]
        · simp only [List.findIdx?_cons, ha]
          simpa using ih h

/-! ### C10: account lookup by email is exact -/

/-- C10: every operation that looks an account up by email uses the exact
string equality `a.email = login_email`.  For any candidate string that
matches no stored email — in particular one differing from a stored
email only in letter case — `admin_login`, `admin_confirm_two_factor`
and `admin_disable_two_factor` reject with `Invalid credentials` (and
leave the database unchanged), and `admin_start_two_factor` raises
`Invalid credentials`, regardless of the supplied password. -/
theorem email_lookup_is_exact
    (crypt : Text → Text → Text) (hmac : List Nat → List Nat → List Nat)
    (now newId : Nat) (rand20 : List Nat) (rand5s : Nat → List Nat)
    (salts : Nat → Text) (db : DB) (candidate pw : Text) (code : Option Text)
    (hnone : ∀ u ∈ db.admin_users, u.email ≠ candidate) :
    admin_login crypt now newId db candidate pw = (loginRejectedRow, db) ∧
    admin_start_two_factor crypt rand20 rand5s salts db candidate pw
      = .error invalidCredentialsMsg ∧
    admin_confirm_two_factor hmac crypt now db candidate pw code
      = ((false, some invalidCredentialsMsg), db) ∧
    admin_disable_two_factor hmac crypt now db candidate pw code
      = ((false, some invalidCredentialsMsg), db) := by
  have hf : db.admin_users.find? (fun a => a.email == candidate) = none := by
    rw [List.find?_eq_none]
    intro u hu
    simpa using hnone u hu
  refine ⟨?_, ?_, ?_, ?_⟩
  · simp [admin_login, hf]
  · simp [admin_start_two_factor, hf]
  · simp [admin_confirm_two_factor, hf]
  · simp [admin_disable_two_factor, hf]

/-- Witness for C10: a single stored account with email
`admin@example.com`; the candidate `Admin@example.com` differs only in
the case of its first letter, and the password is the stored account's
correct password, yet all four operations reject. -/
theorem email_lookup_is_exact_witness :
    (∀ u ∈ dbOffW.admin_users, u.email ≠ 'A' :: "dmin@example.com".toList) ∧
    admin_login cryptW 0 99 dbOffW ('A' :: "dmin@example.com".toList) pwW
      = (loginRejectedRow, dbOffW) := by
  refine ⟨by decide, ?_⟩
  exact (email_lookup_is_exact cryptW hmacW 0 99 [] (fun _ => []) (fun _ => [])
    dbOffW ('A' :: "dmin@example.com".toList) pwW none (by decide)).1

/-! ### C8: failure propagation -/

/-- Counterexample to C8: `admin_start_two_factor` does NOT return its
validation failure as a typed rejection record — on a wrong password
(here: stored account `admin@example.com` with password `pw`, caller
supplies password `bad`) it raises the exception `Invalid credentials`
(`RAISE EXCEPTION` in the source, modelled as `Except.error`). -/
theorem start_two_factor_raises_on_bad_password :
    admin_start_two_factor cryptW (List.replicate 20 255) (fun _ => [1, 2, 3, 4, 5])
      (fun _ => "s".toList) dbOffW emailW "bad".toList
      = .error invalidCredentialsMsg := by
  rfl

/-- C8 (amended): four of the five core operations — `admin_login`,
`admin_verify_two_factor`, `admin_confirm_two_factor`,
`admin_disable_two_factor` — return every validation failure as a typed
rejection (`success = false` always comes with an error message in the
returned record, and these functions are total, raising nothing);
`admin_start_two_factor`, however, signals its only validation failure
(unknown email or password mismatch) by raising the exception
`Invalid credentials` instead of returning a record, and that is the
only exception it can raise. -/
theorem core_rejections_are_typed
    (hmac : List Nat → List Nat → List Nat) (crypt : Text → Text → Text)
    (now newId : Nat) (rand20 : List Nat) (rand5s : Nat → List Nat)
    (salts : Nat → Text) (db : DB) (email pw : Text) (code : Option Text)
    (challenge : Nat) :
    ((admin_login crypt now newId db email pw).1.success = false →
      (admin_login crypt now newId db email pw).1.requires_otp = true ∨
      (admin_login crypt now newId db email pw).1.error ≠ none) ∧
    ((admin_verify_two_factor hmac crypt now db challenge code).1.success = false →
      (admin_verify_two_factor hmac crypt now db challenge code).1.error ≠ none) ∧
    ((admin_confirm_two_factor hmac crypt now db email pw code).1.1 = false →
      (admin_confirm_two_factor hmac crypt now db email pw code).1.2 ≠ none) ∧
    ((admin_disable_two_factor hmac crypt now db email pw code).1.1 = false →
      (admin_disable_two_factor hmac crypt now db email pw code).1.2 ≠ none) ∧
    (∀ e, admin_start_two_factor crypt rand20 rand5s salts db email pw = .error e →
      e = invalidCredentialsMsg) := by
  refine ⟨?_, ?_, ?_, ?_, ?_⟩
  · cases hf : db.admin_users.find? (fun a => a.email == email) with
    | none => simp [admin_login, hf, loginRejectedRow]
    | some account =>
        simp only [admin_login, hf]
        split_ifs <;> simp [loginRejectedRow]
  · cases hf : db.admin_login_challenges.find?
        (fun c => c.id == challenge && c.consumed_at == none
          && decide (now < c.expires_at)) with
    | none => simp [admin_verify_two_factor, hf, verifyRejectedRow]
    | some rc =>
        cases hg : db.admin_users.find? (fun a => a.id == rc.admin_user_id) with
        | none => simp [admin_verify_two_factor, hf, hg, verifyRejectedRow]
        | some account =>
            simp only [admin_verify_two_factor, hf, hg]
            split_ifs with h1 h2
            · simp [verifySuccessRow]
            · simp [verifySuccessRow]
            · cases hr : account.two_factor_recovery_codes.find?
                  (fun code_hash => crypt (code.getD []) code_hash == code_hash) with
              | none => simp [hr, verifyRejectedRow]
              | some m => simp [hr, verifySuccessRow]
  · cases hf : db.admin_users.find? (fun a => a.email == email) with
    | none => simp [admin_confirm_two_factor, hf]
    | some account =>
        simp only [admin_confirm_two_factor, hf]
        split_ifs <;> simp
  · cases hf : db.admin_users.find? (fun a => a.email == email) with
    | none => simp [admin_disable_two_factor, hf]
    | some account =>
        simp only [admin_disable_two_factor, hf]
        split_ifs <;> simp
  · intro e he
    cases hf : db.admin_users.find? (fun a => a.email == email) with
    | none =>
        simp only [admin_start_two_factor, hf] at he
        injection he with h
        exact h.symm
    | some account =>
        simp only [admin_start_two_factor, hf] at he
        split_ifs at he with h1
        injection he with h
        exact h.symm

/-- Witness for C8's amended statement: at a concrete wrong-password
input, `admin_confirm_two_factor` indeed rejects with a typed error
message rather than raising. -/
theorem core_rejections_are_typed_witness :
    (admin_confirm_two_factor hmacW cryptW 0 dbOffW emailW "bad".toList none).1.2 ≠ none := by
  exact (core_rejections_are_typed hmacW cryptW 0 0 [] (fun _ => []) (fun _ => [])
    dbOffW emailW "bad".toList none 0).2.2.1 (by decide)

/-! ### C7: verification auto-succeeds when 2FA was disabled mid-flow -/

/-- C7: for a valid (unconsumed, unexpired) challenge whose owning
account has `two_factor_enabled = false` or a null active secret,
`admin_verify_two_factor` returns success with the account identity and
marks the challenge consumed, for every submitted code (including `none`
and the empty string). -/
theorem verify_succeeds_when_two_factor_disabled
    (hmac : List Nat → List Nat → List Nat) (crypt : Text → Text → Text)
    (now : Nat) (db : DB) (challenge : Nat) (code : Option Text)
    (rc : LoginChallenge) (account : AdminUser)
    (hch : db.admin_login_challenges.find?
      (fun c => c.id == challenge && c.consumed_at == none
        && decide (now < c.expires_at)) = some rc)
    (hacc : db.admin_users.find? (fun a => a.id == rc.admin_user_id) = some account)
    (hdis : account.two_factor_enabled = false ∨ account.two_factor_secret = none) :
    admin_verify_two_factor hmac crypt now db challenge code
      = (verifySuccessRow account, consumeChallenge db rc.id now) ∧
    ∀ c ∈ (consumeChallenge db rc.id now).admin_login_challenges,
      c.id = rc.id → c.consumed_at = some now := by
  constructor
  · simp only [admin_verify_two_factor, hch, hacc]
    rw [if_pos hdis]
  · intro c hc hcid
    simp only [consumeChallenge, List.mem_map] at hc
    obtain ⟨c0, _, rfl⟩ := hc
    by_cases h0 : c0.id = rc.id
    · simp [h0]
    · simp only [if_neg h0] at hcid ⊢
      exact absurd hcid h0

/-- Witness for C7: account 1 has 2FA disabled while challenge 7 is
still valid at time 10; verification with no code at all succeeds and
consumes the challenge. -/
theorem verify_succeeds_when_two_factor_disabled_witness :
    admin_verify_two_factor hmacW cryptW 10 dbOffW 7 none
      = (verifySuccessRow userOffW, consumeChallenge dbOffW 7 10) := by
  exact (verify_succeeds_when_two_factor_disabled hmacW cryptW 10 dbOffW 7 none
    chW userOffW (by decide) (by decide) (Or.inl (by decide))).1

/-! ### C2: challenge single-use -/

theorem find?_consumed_eq_none (chs : List LoginChallenge)
    (challenge now' now2 : Nat) :
    ((chs.map (fun c => if c.id = challenge then { c with consumed_at := some now' }
        else c)).find?
      (fun c => c.id == challenge && c.consumed_at == none
        && decide (now2 < c.expires_at))) = none := by
  rw [List.find?_eq_none]
  intro x hx
  rw [List.mem_map] at hx
  obtain ⟨c, _, rfl⟩ := hx
  by_cases h : c.id = challenge <;> simp [h]

/-- C2: a challenge verifies only while unconsumed and unexpired; every
success path of `admin_verify_two_factor` marks the challenge consumed,
so a second call with the same challenge id is rejected with
`Challenge expired or invalid` (for every later time and code, leaving
the database unchanged); and a call that fails with
`Invalid authentication code` changes nothing, so the challenge can be
retried. -/
theorem challenge_single_use
    (hmac : List Nat → List Nat → List Nat) (crypt : Text → Text → Text)
    (now : Nat) (db : DB) (challenge : Nat) (code : Option Text) :
    ((admin_verify_two_factor hmac crypt now db challenge code).1.success = true →
      ∃ c ∈ db.admin_login_challenges,
        c.id = challenge ∧ c.consumed_at = none ∧ now < c.expires_at) ∧
    ((admin_verify_two_factor hmac crypt now db challenge code).1.success = true →
      ∀ now2 code2,
        admin_verify_two_factor hmac crypt now2
            (admin_verify_two_factor hmac crypt now db challenge code).2 challenge code2
          = (verifyRejectedRow challengeInvalidMsg,
              (admin_verify_two_factor hmac crypt now db challenge code).2)) ∧
    ((admin_verify_two_factor hmac crypt now db challenge code).1.error
        = some invalidAuthCodeMsg →
      (admin_verify_two_factor hmac crypt now db challenge code).2 = db) := by
  cases hf : db.admin_login_challenges.find?
      (fun c => c.id == challenge && c.consumed_at == none
        && decide (now < c.expires_at)) with
  | none =>
      refine ⟨?_, ?_, ?_⟩ <;>
        simp [admin_verify_two_factor, hf, verifyRejectedRow, challengeInvalidMsg,
          invalidAuthCodeMsg]
  | some rc =>
      have hrcP := List.find?_some hf
      have hrcmem := List.mem_of_find?_eq_some hf
      simp only [Bool.and_eq_true, beq_iff_eq, decide_eq_true_eq] at hrcP
      obtain ⟨⟨hid, hcons⟩, hexp⟩ := hrcP
      have hexists : ∃ c ∈ db.admin_login_challenges,
          c.id = challenge ∧ c.consumed_at = none ∧ now < c.expires_at :=
        ⟨rc, hrcmem, hid, hcons, hexp⟩
      have hsecond : ∀ (dbx : DB),
          dbx.admin_login_challenges
            = db.admin_login_challenges.map
                (fun c => if c.id = rc.id then { c with consumed_at := some now } else c) →
          ∀ now2 code2, admin_verify_two_factor hmac crypt now2 dbx challenge code2
            = (verifyRejectedRow challengeInvalidMsg, dbx) := by
        intro dbx hdbx now2 code2
        have : dbx.admin_login_challenges.find?
            (fun c => c.id == challenge && c.consumed_at == none
              && decide (now2 < c.expires_at)) = none := by
          rw [hdbx, hid]
          exact find?_consumed_eq_none _ challenge now now2
        simp only [admin_verify_two_factor, this]
      cases hg : db.admin_users.find? (fun a => a.id == rc.admin_user_id) with
      | none =>
          refine ⟨?_, ?_, ?_⟩ <;>
            simp [admin_verify_two_factor, hf, hg, verifyRejectedRow,
              accountMissingMsg, invalidAuthCodeMsg]
      | some account =>
          simp only [admin_verify_two_factor, hf, hg]
          split_ifs with h1 h2
          · exact ⟨fun _ => hexists,
              fun _ => hsecond _ rfl,
              by simp [verifySuccessRow]⟩
          · exact ⟨fun _ => hexists,
              fun _ => hsecond _ rfl,
              by simp [verifySuccessRow]⟩
          · cases hr : account.two_factor_recovery_codes.find?
                (fun code_hash => crypt (code.getD []) code_hash == code_hash) with
            | none =>
                refine ⟨?_, ?_, ?_⟩ <;> simp [hr, verifyRejectedRow]
            | some m =>
                refine ⟨fun _ => hexists, fun _ => ?_, by simp [hr, verifySuccessRow]⟩
                simp only [hr]
                intro now2 code2
                exact hsecond _ (by simp [consumeChallenge, removeRecoveryHash]) now2 code2

/-- Witness for C2: with the valid challenge 7 of an account whose 2FA
is disabled, verification succeeds once and the repeated call is
rejected with `Challenge expired or invalid`. -/
theorem challenge_single_use_witness :
    (admin_verify_two_factor hmacW cryptW 10 dbOffW 7 none).1.success = true ∧
    admin_verify_two_factor hmacW cryptW 10
        (admin_verify_two_factor hmacW cryptW 10 dbOffW 7 none).2 7 none
      = (verifyRejectedRow challengeInvalidMsg,
          (admin_verify_two_factor hmacW cryptW 10 dbOffW 7 none).2) := by
  refine ⟨by decide, ?_⟩
  exact (challenge_single_use hmacW cryptW 10 dbOffW 7 none).2.1 (by decide) 10 none

/-! ### C5: enrollment writes temp fields only; confirm promotes atomically -/

/-- C5: `admin_start_two_factor` writes only the two temp fields (the
active flag, secret, recovery codes, confirmed-at timestamp and all
identity fields of every account, and the challenge table, are
unchanged); a successful `admin_confirm_two_factor` promotes the
pending values to the active fields, stamps the confirmation time, and
clears both temp fields in the same single update; and a confirm whose
code does not validate against the temp secret changes nothing. -/
theorem enrollment_is_atomic
    (hmac : List Nat → List Nat → List Nat) (crypt : Text → Text → Text)
    (now : Nat) (rand20 : List Nat) (rand5s : Nat → List Nat) (salts : Nat → Text)
    (db : DB) (email pw : Text) (code : Option Text)
    (account : AdminUser) (tsec : Text) :
    (∀ res db', admin_start_two_factor crypt rand20 rand5s salts db email pw
        = .ok (res, db') →
      db'.admin_login_challenges = db.admin_login_challenges ∧
      List.Forall₂ (fun u u' =>
          u'.id = u.id ∧ u'.email = u.email ∧ u'.name = u.name ∧ u'.role = u.role ∧
          u'.password_hash = u.password_hash ∧
          u'.two_factor_enabled = u.two_factor_enabled ∧
          u'.two_factor_secret = u.two_factor_secret ∧
          u'.two_factor_recovery_codes = u.two_factor_recovery_codes ∧
          u'.two_factor_confirmed_at = u.two_factor_confirmed_at)
        db.admin_users db'.admin_users) ∧
    (db.admin_users.find? (fun a => a.email == email) = some account →
      crypt pw account.password_hash = account.password_hash →
      account.two_factor_temp_secret = some tsec →
      (admin_totp_is_valid hmac now (some tsec) code 1 = true →
        (admin_confirm_two_factor hmac crypt now db email pw code).1 = (true, none) ∧
        (admin_confirm_two_factor hmac crypt now db email pw code).2.admin_login_challenges
          = db.admin_login_challenges ∧
        List.Forall₂ (fun u u' =>
            (u.id = account.id →
              u'.id = u.id ∧ u'.email = u.email ∧ u'.name = u.name ∧
              u'.role = u.role ∧ u'.password_hash = u.password_hash ∧
              u'.two_factor_secret = some tsec ∧
              u'.two_factor_enabled = true ∧
              u'.two_factor_confirmed_at = some now ∧
              u'.two_factor_recovery_codes = account.two_factor_temp_recovery_codes ∧
              u'.two_factor_temp_secret = none ∧
              u'.two_factor_temp_recovery_codes = []) ∧
            (u.id ≠ account.id → u' = u))
          db.admin_users
          (admin_confirm_two_factor hmac crypt now db email pw code).2.admin_users) ∧
      (admin_totp_is_valid hmac now (some tsec) code 1 = false →
        admin_confirm_two_factor hmac crypt now db email pw code
          = ((false, some verificationCodeInvalidMsg), db))) := by
  constructor
  · intro res db' h
    cases hfa : db.admin_users.find? (fun a => a.email == email) with
    | none =>
        rw [admin_start_two_factor, hfa] at h
        exact absurd h (by simp)
    | some a =>
        simp only [admin_start_two_factor, hfa] at h
        split_ifs at h with hpw1
        injection h with hpair
        rw [Prod.ext_iff] at hpair
        obtain ⟨-, h2⟩ := hpair
        subst h2
        refine ⟨rfl, forall₂_map_self _ _ _ ?_⟩
        intro u
        by_cases hu : u.id = a.id <;> simp [hu]
  · intro hacc hpw htemp
    have hpw' : ¬ account.password_hash ≠ crypt pw account.password_hash :=
      fun hne => hne hpw.symm
    have htempne : ¬ account.two_factor_temp_secret = none := by
      rw [htemp]; simp
    constructor
    · intro hvalid
      have hcall : admin_confirm_two_factor hmac crypt now db email pw code
          = ((true, none),
            { db with
              admin_users :=
                db.admin_users.map
                  (fun u =>
                    if u.id = account.id then
                      { u with
                        two_factor_secret := account.two_factor_temp_secret,
                        two_factor_enabled := true,
                        two_factor_confirmed_at := some now,
                        two_factor_recovery_codes := account.two_factor_temp_recovery_codes,
                        two_factor_temp_secret := none,
                        two_factor_temp_recovery_codes := [] }
                    else u) }) := by
        simp only [admin_confirm_two_factor, hacc]
        rw [if_neg hpw', if_neg htempne, if_neg (by rw [htemp, hvalid]; simp)]
      rw [hcall]
      refine ⟨rfl, rfl, forall₂_map_self _ _ _ ?_⟩
      intro u
      by_cases hu : u.id = account.id <;> simp [hu, htemp]
    · intro hinvalid
      simp only [admin_confirm_two_factor, hacc]
      rw [if_neg hpw', if_neg htempne, if_pos (by rw [htemp, hinvalid]; simp)]

/-- Witness for C5: starting enrollment on the concrete database leaves
the active fields untouched, and confirming with the valid code
`000000` against the pending temp secret promotes it. -/
theorem enrollment_is_atomic_witness :
    (admin_confirm_two_factor hmacW cryptW 0 dbTempW emailW pwW
        (some "000000".toList)).1 = (true, none) ∧
    admin_confirm_two_factor hmacW cryptW 0 dbTempW emailW pwW (some "wrong".toList)
      = ((false, some verificationCodeInvalidMsg), dbTempW) := by
  have h := (enrollment_is_atomic hmacW cryptW 0 [] (fun _ => []) (fun _ => [])
    dbTempW emailW pwW (some "000000".toList) userTempW "AA".toList).2
    (by decide) (by decide) (by decide)
  refine ⟨(h.1 (by decide)).1, ?_⟩
  have h2 := (enrollment_is_atomic hmacW cryptW 0 [] (fun _ => []) (fun _ => [])
    dbTempW emailW pwW (some "wrong".toList) userTempW "AA".toList).2
    (by decide) (by decide) (by decide)
  exact h2.2 (by decide)

/-! ### C6: disable requires enablement and a valid second factor -/

theorem take_recovery_success_iff
    (crypt : Text → Text → Text) (db : DB) (uid : Nat) (attempt : Option Text)
    (account : AdminUser)
    (hid : db.admin_users.find? (fun u => u.id == uid) = some account) :
    (admin_take_recovery_code crypt db uid attempt).1 = true ↔
      ∃ a, attempt = some a ∧ pgTrim a ≠ [] ∧
        ∃ hh ∈ account.two_factor_recovery_codes, crypt (pgTrim a) hh = hh := by
  cases attempt with
  | none => simp [admin_take_recovery_code]
  | some a =>
      simp only [admin_take_recovery_code, hid]
      by_cases htrim : pgTrim a = []
      · simp [htrim]
      · rw [if_neg htrim]
        simp only [Option.map_some', Option.getD_some]
        cases hfr : account.two_factor_recovery_codes.find?
            (fun code_hash => crypt (pgTrim a) code_hash == code_hash) with
        | none =>
            rw [List.find?_eq_none] at hfr
            simp only [beq_iff_eq] at hfr
            constructor
            · intro h
              exact absurd h (by simp)
            · rintro ⟨a', ha', -, hh, hmem, hcr⟩
              rw [Option.some.injEq] at ha'
              rw [← ha'] at hcr
              exact absurd hcr (hfr hh hmem)
        | some m =>
            have hm := List.find?_some hfr
            have hmmem := List.mem_of_find?_eq_some hfr
            rw [beq_iff_eq] at hm
            simp only [hfr]
            exact ⟨fun _ => ⟨a, rfl, htrim, m, hmmem, hm⟩, fun _ => by simp⟩

theorem take_recovery_failure_no_change
    (crypt : Text → Text → Text) (db : DB) (uid : Nat) (attempt : Option Text) :
    (admin_take_recovery_code crypt db uid attempt).1 = false →
    (admin_take_recovery_code crypt db uid attempt).2 = db := by
  cases attempt with
  | none => simp [admin_take_recovery_code]
  | some a =>
      simp only [admin_take_recovery_code]
      by_cases htrim : pgTrim a = []
      · simp [htrim]
      · rw [if_neg htrim]
        cases hfr : (((db.admin_users.find? (fun u => u.id == uid)).map
            (fun u => u.two_factor_recovery_codes)).getD []).find?
            (fun code_hash => crypt (pgTrim a) code_hash == code_hash) with
        | none => simp [hfr]
        | some m => simp [hfr]

theorem take_recovery_success_state
    (crypt : Text → Text → Text) (db : DB) (uid : Nat) (attempt : Option Text)
    (tdb : DB)
    (h : admin_take_recovery_code crypt db uid attempt = (true, tdb)) :
    ∃ m, tdb = removeRecoveryHash db uid m := by
  cases attempt with
  | none => simp [admin_take_recovery_code] at h
  | some a =>
      simp only [admin_take_recovery_code] at h
      by_cases htrim : pgTrim a = []
      · rw [if_pos htrim] at h
        exact absurd h (by simp)
      · rw [if_neg htrim] at h
        cases hfr : (((db.admin_users.find? (fun u => u.id == uid)).map
            (fun u => u.two_factor_recovery_codes)).getD []).find?
            (fun code_hash => crypt (pgTrim a) code_hash == code_hash) with
        | none => rw [hfr] at h; exact absurd h (by simp)
        | some m =>
            rw [hfr] at h
            simp only [Prod.mk.injEq] at h
            exact ⟨m, h.2.symm⟩

/-- C6: `admin_disable_two_factor` with a correct password (a) rejects
with `Two-factor authentication is not enabled` whenever the account's
flag is off; on an enabled account it (b) succeeds exactly when the code
is a valid TOTP code for the active secret or matches an active recovery
code, (c) on success clears the enabled flag, the active secret, the
recovery list and both temp fields while leaving identity fields, the
confirmation timestamp, every other account and the challenge table
unchanged, and (d) when both checks fail returns
`Invalid authentication code` without changing the database. -/
theorem disable_two_factor_correct
    (hmac : List Nat → List Nat → List Nat) (crypt : Text → Text → Text)
    (now : Nat) (db : DB) (email pw : Text) (code : Option Text)
    (account : AdminUser)
    (hacc : db.admin_users.find? (fun a => a.email == email) = some account)
    (hid : db.admin_users.find? (fun u => u.id == account.id) = some account)
    (hpw : crypt pw account.password_hash = account.password_hash) :
    (account.two_factor_enabled = false →
      admin_disable_two_factor hmac crypt now db email pw code
        = ((false, some notEnabledMsg), db)) ∧
    (account.two_factor_enabled = true →
      ((admin_disable_two_factor hmac crypt now db email pw code).1.1 = true ↔
        admin_totp_is_valid hmac now account.two_factor_secret code 1 = true ∨
        ∃ a, code = some a ∧ pgTrim a ≠ [] ∧
          ∃ hh ∈ account.two_factor_recovery_codes, crypt (pgTrim a) hh = hh)) ∧
    (account.two_factor_enabled = true →
      (admin_disable_two_factor hmac crypt now db email pw code).1.1 = true →
      (admin_disable_two_factor hmac crypt now db email pw code).1.2 = none ∧
      (admin_disable_two_factor hmac crypt now db email pw code).2.admin_login_challenges
        = db.admin_login_challenges ∧
      List.Forall₂ (fun u u' =>
          (u.id = account.id →
            u'.id = u.id ∧ u'.email = u.email ∧ u'.name = u.name ∧
            u'.role = u.role ∧ u'.password_hash = u.password_hash ∧
            u'.two_factor_confirmed_at = u.two_factor_confirmed_at ∧
            u'.two_factor_enabled = false ∧ u'.two_factor_secret = none ∧
            u'.two_factor_recovery_codes = [] ∧
            u'.two_factor_temp_secret = none ∧
            u'.two_factor_temp_recovery_codes = []) ∧
          (u.id ≠ account.id → u' = u))
        db.admin_users
        (admin_disable_two_factor hmac crypt now db email pw code).2.admin_users) ∧
    (account.two_factor_enabled = true →
      admin_totp_is_valid hmac now account.two_factor_secret code 1 = false →
      (admin_take_recovery_code crypt db account.id code).1 = false →
      admin_disable_two_factor hmac crypt now db email pw code
        = ((false, some invalidAuthCodeMsg), db)) := by
  have hpw' : ¬ account.password_hash ≠ crypt pw account.password_hash :=
    fun hne => hne hpw.symm
  refine ⟨?_, ?_, ?_, ?_⟩
  · intro hoff
    simp only [admin_disable_two_factor, hacc]
    rw [if_neg hpw', if_pos hoff]
  · intro hon
    rw [← take_recovery_success_iff crypt db account.id code account hid]
    simp only [admin_disable_two_factor, hacc]
    rw [if_neg hpw', if_neg (by rw [hon]; simp)]
    by_cases hv : admin_totp_is_valid hmac now account.two_factor_secret code 1 = true
    · simp [hv]
    · rw [Bool.not_eq_true] at hv
      rw [hv]
      cases ht : (admin_take_recovery_code crypt db account.id code).1 <;>
        simp [ht]
  · intro hon hsucc
    simp only [admin_disable_two_factor, hacc] at hsucc ⊢
    rw [if_neg hpw', if_neg (by rw [hon]; simp)] at hsucc ⊢
    by_cases hv : admin_totp_is_valid hmac now account.two_factor_secret code 1 = true
    · rw [hv] at hsucc ⊢
      simp only [if_true, ite_true, if_pos rfl] at hsucc ⊢
      refine ⟨by simp, by simp, ?_⟩
      have : ¬ ((true, db).1 = false) := by simp
      rw [if_neg this]
      apply forall₂_map_self
      intro u
      by_cases hu : u.id = account.id <;> simp [hu]
    · rw [Bool.not_eq_true] at hv
      rw [hv] at hsucc ⊢
      rcases htake : admin_take_recovery_code crypt db account.id code with ⟨tb, tdb⟩
      rw [htake] at hsucc
      simp only [Bool.false_eq_true, if_false, ite_false] at hsucc ⊢
      cases tb with
      | false => simp at hsucc
      | true =>
          obtain ⟨m, rfl⟩ := take_recovery_success_state crypt db account.id code tdb htake
          have hne : ¬ (((true : Bool), removeRecoveryHash db account.id m).1 = false) := by
            simp
          rw [if_neg hne]
          refine ⟨by simp, by simp [removeRecoveryHash], ?_⟩
          simp only [removeRecoveryHash, List.map_map]
          apply forall₂_map_self
          intro u
          by_cases hu : u.id = account.id <;> simp [hu, Function.comp]
  · intro hon hv ht
    have htdb := take_recovery_failure_no_change crypt db account.id code ht
    simp only [admin_disable_two_factor, hacc]
    rw [if_neg hpw', if_neg (by rw [hon]; simp), hv]
    simp only [Bool.false_eq_true, if_false, ite_false]
    rw [if_pos ht, htdb]

/-- Witness for C6: on the enabled concrete account, disabling with
recovery code `C3` succeeds, and disabling with a wrong code fails with
`Invalid authentication code` and no change. -/
theorem disable_two_factor_correct_witness :
    ((admin_disable_two_factor hmacW cryptW 50 dbOnW emailW pwW
        (some "C3".toList)).1.1 = true) ∧
    admin_disable_two_factor hmacW cryptW 50 dbOnW emailW pwW (some "zz".toList)
      = ((false, some invalidAuthCodeMsg), dbOnW) := by
  constructor
  · exact ((disable_two_factor_correct hmacW cryptW 50 dbOnW emailW pwW
      (some "C3".toList) userOnW (by decide) (by decide) (by decide)).2.1
      (by decide)).mpr
      (Or.inr ⟨"C3".toList, rfl, by decide, "#C3".toList, by decide, by decide⟩)
  · exact (disable_two_factor_correct hmacW cryptW 50 dbOnW emailW pwW
      (some "zz".toList) userOnW (by decide) (by decide) (by decide)).2.2.2
      (by decide) (by decide) (by decide)

/-! ### C3: recovery codes are single-use -/

theorem find?_eq_some_of_unique {α : Type} (l : List α) (p : α → Bool) (h : α)
    (hmem : h ∈ l) (hp : p h = true) (huniq : ∀ x ∈ l, p x = true → x = h) :
    l.find? p = some h := by
  induction l with
  | nil => simp at hmem
  | cons a t ih =>
      rw [List.find?_cons]
      cases hpa : p a with
      | true => rw [huniq a (List.mem_cons_self a t) hpa]
      | false =>
          rcases List.mem_cons.mp hmem with rfl | hmem'
          · rw [hp] at hpa; cases hpa
          · exact ih hmem' (fun x hx hpx => huniq x (List.mem_cons_of_mem a hx) hpx)

theorem filter_ne_eq_erase (l : List Text) (h : Text) (hnd : l.Nodup) :
    l.filter (fun x => x ≠ h) = l.erase h := by
  rw [List.Nodup.erase_eq_filter hnd]
  apply List.filter_congr
  intro x _
  by_cases hx : x = h <;> simp [hx]

/-- C3: with distinct stored hashes and a plaintext matching exactly one
hash `h`, (1) `admin_take_recovery_code` succeeds and removes exactly
`h`, (2) the surviving account's stored list is `erase h`, (3) a second
consumption of the same plaintext fails and changes nothing, (4) every
plaintext matching one of the other hashes still succeeds afterwards,
and (5) the recovery fallback inside `admin_verify_two_factor` removes
exactly the same hash `h` on its consumption path. -/
theorem recovery_code_single_use
    (hmac : List Nat → List Nat → List Nat) (crypt : Text → Text → Text)
    (now : Nat) (db : DB) (uid : Nat) (attempt : Text) (h : Text)
    (account : AdminUser)
    (hid : db.admin_users.find? (fun u => u.id == uid) = some account)
    (hnd : account.two_factor_recovery_codes.Nodup)
    (hmem : h ∈ account.two_factor_recovery_codes)
    (hmatch : crypt (pgTrim attempt) h = h)
    (huniq : ∀ h' ∈ account.two_factor_recovery_codes,
      crypt (pgTrim attempt) h' = h' → h' = h)
    (hblank : pgTrim attempt ≠ []) :
    admin_take_recovery_code crypt db uid (some attempt)
      = (true, removeRecoveryHash db uid h) ∧
    ((removeRecoveryHash db uid h).admin_users.find? (fun u => u.id == uid))
      = some { account with
          two_factor_recovery_codes := account.two_factor_recovery_codes.erase h } ∧
    admin_take_recovery_code crypt (removeRecoveryHash db uid h) uid (some attempt)
      = (false, removeRecoveryHash db uid h) ∧
    (∀ attempt2 h2, h2 ∈ account.two_factor_recovery_codes → h2 ≠ h →
      crypt (pgTrim attempt2) h2 = h2 → pgTrim attempt2 ≠ [] →
      (admin_take_recovery_code crypt (removeRecoveryHash db uid h) uid
        (some attempt2)).1 = true) ∧
    (∀ ch rc, db.admin_login_challenges.find?
        (fun c => c.id == ch && c.consumed_at == none
          && decide (now < c.expires_at)) = some rc →
      rc.admin_user_id = uid →
      account.two_factor_enabled = true →
      account.two_factor_secret ≠ none →
      admin_totp_is_valid hmac now account.two_factor_secret (some attempt) 1 = false →
      crypt attempt h = h →
      (∀ h' ∈ account.two_factor_recovery_codes, crypt attempt h' = h' → h' = h) →
      admin_verify_two_factor hmac crypt now db ch (some attempt)
        = (verifySuccessRow account, consumeChallenge (removeRecoveryHash db uid h) rc.id now)) := by
  have haccid : account.id = uid := by
    have := List.find?_some hid
    rwa [beq_iff_eq] at this
  have hfindh : account.two_factor_recovery_codes.find?
      (fun code_hash => crypt (pgTrim attempt) code_hash == code_hash) = some h := by
    apply find?_eq_some_of_unique _ _ h hmem
    · rw [beq_iff_eq]; exact hmatch
    · intro x hx hpx
      rw [beq_iff_eq] at hpx
      exact huniq x hx hpx
  have hfind1 : (removeRecoveryHash db uid h).admin_users.find? (fun u => u.id == uid)
      = some { account with
          two_factor_recovery_codes := account.two_factor_recovery_codes.erase h } := by
    simp only [removeRecoveryHash]
    rw [find?_map_of_pred]
    · rw [hid]
      simp only [Option.map_some']
      rw [if_pos haccid]
      rw [filter_ne_eq_erase _ _ hnd]
    · intro a
      by_cases ha : a.id = uid <;> simp [ha]
  refine ⟨?_, hfind1, ?_, ?_, ?_⟩
  · simp only [admin_take_recovery_code, hid]
    rw [if_neg hblank]
    simp only [Option.map_some', Option.getD_some, hfindh, haccid]
  · simp only [admin_take_recovery_code, hfind1]
    rw [if_neg hblank]
    simp only [Option.map_some', Option.getD_some]
    have : (account.two_factor_recovery_codes.erase h).find?
        (fun code_hash => crypt (pgTrim attempt) code_hash == code_hash) = none := by
      rw [List.find?_eq_none]
      intro x hx
      rw [List.Nodup.mem_erase_iff hnd] at hx
      simp only [beq_iff_eq]
      intro hcx
      exact hx.1 (huniq x hx.2 hcx)
    rw [this]
  · intro attempt2 h2 hmem2 hne2 hmatch2 hblank2
    rw [take_recovery_success_iff crypt _ uid (some attempt2)
      { account with
        two_factor_recovery_codes := account.two_factor_recovery_codes.erase h } hfind1]
    exact ⟨attempt2, rfl, hblank2,
      h2, by rw [List.Nodup.mem_erase_iff hnd]; exact ⟨hne2, hmem2⟩, hmatch2⟩
  · intro ch rc hch hrcuid hen hsec htotp hmatch2 huniq2
    have hfindh2 : account.two_factor_recovery_codes.find?
        (fun code_hash => crypt attempt code_hash == code_hash) = some h := by
      apply find?_eq_some_of_unique _ _ h hmem
      · rw [beq_iff_eq]; exact hmatch2
      · intro x hx hpx
        rw [beq_iff_eq] at hpx
        exact huniq2 x hx hpx
    have hfacc : db.admin_users.find? (fun a => a.id == rc.admin_user_id) = some account := by
      rw [hrcuid]; exact hid
    simp only [admin_verify_two_factor, hch, hfacc]
    rw [if_neg (by rw [hen]; simp; exact hsec), if_neg (by rw [htotp]; simp)]
    simp only [Option.getD_some, hfindh2, haccid]

/-- Witness for C3: account 1 holds the eight distinct hashes of codes
`C1`..`C8`; consuming `C3` succeeds and leaves the other seven, a
second consumption of `C3` fails, and `C4` still works. -/
theorem recovery_code_single_use_witness :
    admin_take_recovery_code cryptW dbOnW 1 (some "C3".toList)
      = (true, removeRecoveryHash dbOnW 1 "#C3".toList) ∧
    admin_take_recovery_code cryptW (removeRecoveryHash dbOnW 1 "#C3".toList) 1
      (some "C3".toList) = (false, removeRecoveryHash dbOnW 1 "#C3".toList) ∧
    (admin_take_recovery_code cryptW (removeRecoveryHash dbOnW 1 "#C3".toList) 1
      (some "C4".toList)).1 = true ∧
    admin_verify_two_factor hmacW cryptW 50 dbOnW 7 (some "C3".toList)
      = (verifySuccessRow userOnW,
          consumeChallenge (removeRecoveryHash dbOnW 1 "#C3".toList) 7 50) := by
  have h := recovery_code_single_use hmacW cryptW 50 dbOnW 1 "C3".toList "#C3".toList
    userOnW (by decide) (by decide) (by decide) (by decide)
    (by decide) (by decide)
  exact ⟨h.1, h.2.2.1,
    h.2.2.2.1 "C4".toList "#C4".toList (by decide) (by decide) (by decide) (by decide),
    h.2.2.2.2 7 chW (by decide) (by decide) (by decide) (by decide) (by decide)
      (by decide) (by decide)⟩

/-! ### C9: decode strips silently and never errors -/

theorem toUpper_fixed_of_isBase32 (c : Char) (h : isBase32Char c = true) :
    Char.toUpper c = c := by
  simp only [isBase32Char, Bool.or_eq_true, Bool.and_eq_true, decide_eq_true_eq] at h
  simp only [Char.toUpper]
  rw [if_neg]
  rcases h with ⟨h1, h2⟩ | ⟨h1, h2⟩ <;> omega

set_option maxRecDepth 4000 in
theorem toNat_ofNat_small : ∀ m, m < 256 → (Char.ofNat m).toNat = m := by
  decide

theorem toUpper_idem (c : Char) : Char.toUpper (Char.toUpper c) = Char.toUpper c := by
  by_cases hc : c.toNat ≥ 97 ∧ c.toNat ≤ 122
  · have h1 : Char.toUpper c = Char.ofNat (c.toNat - 32) := by
      simp only [Char.toUpper]
      rw [if_pos hc]
    have h2 : (Char.toUpper c).toNat = c.toNat - 32 := by
      rw [h1]
      exact toNat_ofNat_small _ (by omega)
    simp only [Char.toUpper] at h2 ⊢
    rw [if_neg]
    rw [h2]
    omega
  · have h1 : Char.toUpper c = c := by
      simp only [Char.toUpper]
      rw [if_neg hc]
    rw [h1, h1]

theorem mem_alphabet_of_isBase32 (c : Char) (h : isBase32Char c = true) :
    c ∈ b32alphabet := by
  simp only [isBase32Char, Bool.or_eq_true, Bool.and_eq_true, decide_eq_true_eq] at h
  have key : ∀ n, n < 91 → ((65 ≤ n ∧ n ≤ 90) ∨ (50 ≤ n ∧ n ≤ 55)) →
      Char.ofNat n ∈ b32alphabet := by decide
  have := key c.toNat (by omega) h
  rwa [Char.ofNat_toNat] at this

theorem pgPosition_pos (c : Char) (s : Text) (h : c ∈ s) : 1 ≤ pgPosition c s := by
  unfold pgPosition
  cases hf : s.findIdx? (fun x => x == c) with
  | none => exact absurd hf (findIdx?_ne_none_of_mem s c h)
  | some i =>
      show 1 ≤ i + 1
      omega

theorem b32decodeGo_ok (s : Text) :
    ∀ buffer bits out, (∀ c ∈ s, c ∈ b32alphabet) →
    ∃ bs, b32decodeGo s buffer bits out = .ok bs := by
  induction s with
  | nil => exact fun buffer bits out _ => ⟨out, rfl⟩
  | cons c rest ih =>
      intro buffer bits out hall
      have hpos := pgPosition_pos c b32alphabet (hall c (List.mem_cons_self c rest))
      simp only [b32decodeGo]
      rw [if_neg (by omega)]
      exact ih _ _ _ (fun x hx => hall x (List.mem_cons_of_mem c hx))

theorem b32clean_chars (s : Text) : ∀ c ∈ b32clean s, isBase32Char c = true := by
  intro c hc
  exact (List.mem_filter.mp hc).2

theorem base32_decode_never_errors (input : Option Text) :
    ∃ bs, base32_decode input = .ok bs := by
  unfold base32_decode
  by_cases hc : b32clean (input.getD []) = []
  · rw [if_pos hc]; exact ⟨[], rfl⟩
  · rw [if_neg hc]
    exact b32decodeGo_ok _ 0 0 []
      (fun c hcm => mem_alphabet_of_isBase32 c (b32clean_chars _ c hcm))


theorem map_id_of_forall {α : Type} (l : List α) (f : α → α)
    (h : ∀ a ∈ l, f a = a) : l.map f = l := by
  induction l with
  | nil => rfl
  | cons a t ih =>
      rw [List.map_cons, h a (List.mem_cons_self a t),
        ih (fun x hx => h x (List.mem_cons_of_mem a hx))]

theorem b32clean_idem (s : Text) : b32clean (b32clean s) = b32clean s := by
  show ((b32clean s).map Char.toUpper).filter isBase32Char = b32clean s
  rw [map_id_of_forall _ _ (fun a ha => toUpper_fixed_of_isBase32 a (b32clean_chars s a ha))]
  exact List.filter_eq_self.mpr (b32clean_chars s)

theorem b32clean_upper (s : Text) : b32clean (pgUpper s) = b32clean s := by
  show ((s.map Char.toUpper).map Char.toUpper).filter isBase32Char = b32clean s
  rw [List.map_map]
  unfold b32clean
  congr 1
  apply List.map_congr_left
  intro a _
  exact toUpper_idem a

theorem base32_decode_congr (s t : Text) (h : b32clean s = b32clean t) :
    base32_decode (some s) = base32_decode (some t) := by
  unfold base32_decode
  simp only [Option.getD_some, h]

/-- Counterexample to C9: `base32_decode` does not report an error on
the out-of-alphabet digit `0` — it strips it silently: decoding `0AA`
yields the same bytes as decoding `AA`, with no error. -/
theorem base32_decode_accepts_digit_zero :
    base32_decode (some ('0' :: 'A' :: 'A' :: [])) = .ok [0] ∧
    base32_decode (some ('A' :: 'A' :: [])) = .ok [0] := by
  exact ⟨rfl, rfl⟩

/-- C9 (amended): `base32_decode` is case-insensitive and strips every
character outside the alphabet silently — including the letters
`0`, `1`, `8`, `9` — and never reports an error; decoding the empty
string yields the empty byte string. -/
theorem base32_decode_is_lenient (s : Text) :
    (∃ bs, base32_decode (some s) = .ok bs) ∧
    base32_decode (some s) = base32_decode (some (b32clean s)) ∧
    base32_decode (some (pgUpper s)) = base32_decode (some s) ∧
    (∀ c : Char, isBase32Char (Char.toUpper c) = false →
      ∀ t u : Text, base32_decode (some (t ++ c :: u)) = base32_decode (some (t ++ u))) ∧
    base32_decode (some ([] : Text)) = .ok [] := by
  refine ⟨base32_decode_never_errors (some s),
    base32_decode_congr _ _ (b32clean_idem s).symm,
    base32_decode_congr _ _ (b32clean_upper s),
    ?_, rfl⟩
  intro c hc t u
  apply base32_decode_congr
  show ((t ++ c :: u).map Char.toUpper).filter isBase32Char
    = ((t ++ u).map Char.toUpper).filter isBase32Char
  rw [List.map_append, List.map_append, List.map_cons,
    List.filter_append, List.filter_append, List.filter_cons]
  rw [hc]
  simp only [Bool.false_eq_true, if_false, ite_false]

/-- Witness for C9's amended statement: `0`, `1`, `8`, `9` and a space
inside an otherwise valid string are stripped without error. -/
theorem base32_decode_is_lenient_witness :
    base32_decode (some ('A' :: '0' :: 'A' :: []))
      = base32_decode (some ('A' :: 'A' :: [])) ∧
    base32_decode (some ('A' :: ' ' :: 'A' :: []))
      = base32_decode (some ('A' :: 'A' :: [])) := by
  constructor
  · exact (base32_decode_is_lenient ('A' :: '0' :: 'A' :: [])).2.2.2.1 '0' (by decide)
      ('A' :: []) ('A' :: [])
  · exact (base32_decode_is_lenient ('A' :: ' ' :: 'A' :: [])).2.2.2.1 ' ' (by decide)
      ('A' :: []) ('A' :: [])

/-! ### C4: base32 round trip -/

theorem nat_and_31 (x : Nat) : x &&& 31 = x % 32 := by
  have := Nat.and_pow_two_sub_one_eq_mod x 5
  norm_num at this
  exact this

theorem nat_and_255 (x : Nat) : x &&& 255 = x % 256 := by
  have := Nat.and_pow_two_sub_one_eq_mod x 8
  norm_num at this
  exact this

theorem and31_lt (x : Nat) : x &&& 31 < 32 := by
  rw [nat_and_31]
  exact Nat.mod_lt x (by norm_num)

theorem pgPosition_b32encChar : ∀ n, n < 32 →
    pgPosition (b32encChar n) b32alphabet = n + 1 := by
  decide

theorem b32decodeGo_cons_enc (m : Nat) (hm : m < 32) (rest : Text)
    (dbuf dbits : Nat) (out : List Nat) :
    b32decodeGo (b32encChar m :: rest) dbuf dbits out
      = b32decodeGo rest (((dbuf <<< 5) % 2 ^ 64) + m)
          (b32ddrain (((dbuf <<< 5) % 2 ^ 64) + m) (dbits + 5) out).1
          (b32ddrain (((dbuf <<< 5) % 2 ^ 64) + m) (dbits + 5) out).2 := by
  have hpos := pgPosition_b32encChar m hm
  simp only [b32decodeGo, hpos]
  rw [if_neg (by omega)]
  norm_num

theorem b32drain_append (buffer : Nat) : ∀ bits out,
    b32drain buffer bits out
      = ((b32drain buffer bits []).1, out ++ (b32drain buffer bits []).2) := by
  intro bits
  induction bits using Nat.strong_induction_on with
  | _ bits ih =>
      intro out
      by_cases h5 : 5 ≤ bits
      · obtain ⟨b, rfl⟩ : ∃ b, bits = b + 5 := ⟨bits - 5, by omega⟩
        have hstep : ∀ o : Text, b32drain buffer (b + 5) o
            = b32drain buffer b (o ++ [b32encChar ((buffer >>> b) &&& 31)]) :=
          fun o => rfl
        rw [hstep, hstep, ih b (by omega) (out ++ _), ih b (by omega) ([] ++ _)]
        simp [List.append_assoc]
      · have hbase : ∀ o : Text, b32drain buffer bits o = (bits, o) := by
          intro o
          interval_cases bits <;> rfl
        rw [hbase, hbase]
        simp

theorem b32encodeGo_append : ∀ (bs : List Nat) (buffer bits : Nat) (out : Text),
    b32encodeGo bs buffer bits out = out ++ b32encodeGo bs buffer bits [] := by
  intro bs
  induction bs with
  | nil =>
      intro buffer bits out
      simp only [b32encodeGo]
      by_cases h : 0 < bits
      · rw [if_pos h, if_pos h, List.nil_append]
      · rw [if_neg h, if_neg h, List.append_nil]
  | cons v rest ih =>
      intro buffer bits out
      simp only [b32encodeGo]
      rw [b32drain_append _ (bits + 8) out]
      simp only []
      rw [ih _ _ (out ++ _)]
      conv_rhs => rw [ih]
      simp [List.append_assoc]

theorem b32drain_fst_lt (buffer : Nat) : ∀ bits out, (b32drain buffer bits out).1 < 5 := by
  intro bits
  induction bits using Nat.strong_induction_on with
  | _ bits ih =>
      intro out
      by_cases h5 : 5 ≤ bits
      · obtain ⟨b, rfl⟩ : ∃ b, bits = b + 5 := ⟨bits - 5, by omega⟩
        have hstep : ∀ o : Text, b32drain buffer (b + 5) o
            = b32drain buffer b (o ++ [b32encChar ((buffer >>> b) &&& 31)]) :=
          fun o => rfl
        rw [hstep]
        exact ih b (by omega) _
      · have : b32drain buffer bits out = (bits, out) := by
          interval_cases bits <;> rfl
        rw [this]
        omega

theorem b32drain_chars (buffer : Nat) : ∀ bits out,
    (∀ c ∈ out, ∃ n, n < 32 ∧ c = b32encChar n) →
    ∀ c ∈ (b32drain buffer bits out).2, ∃ n, n < 32 ∧ c = b32encChar n := by
  intro bits
  induction bits using Nat.strong_induction_on with
  | _ bits ih =>
      intro out hout
      by_cases h5 : 5 ≤ bits
      · obtain ⟨b, rfl⟩ : ∃ b, bits = b + 5 := ⟨bits - 5, by omega⟩
        have hstep : ∀ o : Text, b32drain buffer (b + 5) o
            = b32drain buffer b (o ++ [b32encChar ((buffer >>> b) &&& 31)]) :=
          fun o => rfl
        rw [hstep]
        apply ih b (by omega)
        intro c hc
        rcases List.mem_append.mp hc with hc | hc
        · exact hout c hc
        · rcases List.mem_singleton.mp hc with rfl
          exact ⟨_, and31_lt _, rfl⟩
      · have : b32drain buffer bits out = (bits, out) := by
          interval_cases bits <;> rfl
        rw [this]
        exact hout

theorem b32encodeGo_chars : ∀ (bs : List Nat) (buffer bits : Nat) (out : Text),
    (∀ c ∈ out, ∃ n, n < 32 ∧ c = b32encChar n) →
    ∀ c ∈ b32encodeGo bs buffer bits out, ∃ n, n < 32 ∧ c = b32encChar n := by
  intro bs
  induction bs with
  | nil =>
      intro buffer bits out hout c hc
      simp only [b32encodeGo] at hc
      by_cases h : 0 < bits
      · rw [if_pos h] at hc
        rcases List.mem_append.mp hc with hc | hc
        · exact hout c hc
        · rcases List.mem_singleton.mp hc with rfl
          exact ⟨_, and31_lt _, rfl⟩
      · rw [if_neg h] at hc
        exact hout c hc
  | cons v rest ih =>
      intro buffer bits out hout c hc
      simp only [b32encodeGo] at hc
      exact ih _ _ _ (b32drain_chars _ (bits + 8) out hout) c hc

theorem encChar_isBase32 : ∀ n, n < 32 → isBase32Char (b32encChar n) = true := by
  decide

theorem encChar_mem_alphabet : ∀ n, n < 32 → b32encChar n ∈ b32alphabet := by
  decide

theorem b32clean_of_enc (s : Text) (h : ∀ c ∈ s, ∃ n, n < 32 ∧ c = b32encChar n) :
    b32clean s = s := by
  unfold b32clean
  rw [map_id_of_forall _ _ (fun a ha => by
    obtain ⟨n, hn, rfl⟩ := h a ha
    exact toUpper_fixed_of_isBase32 _ (encChar_isBase32 n hn))]
  exact List.filter_eq_self.mpr (fun a ha => by
    obtain ⟨n, hn, rfl⟩ := h a ha
    exact encChar_isBase32 n hn)

theorem b32ddrain5 (B : Nat) (out : List Nat) : b32ddrain B 5 out = (5, out) := rfl
theorem b32ddrain6 (B : Nat) (out : List Nat) : b32ddrain B 6 out = (6, out) := rfl
theorem b32ddrain7 (B : Nat) (out : List Nat) : b32ddrain B 7 out = (7, out) := rfl
theorem b32ddrain8 (B : Nat) (out : List Nat) :
    b32ddrain B 8 out = (0, out ++ [B &&& 255]) := rfl
theorem b32ddrain9 (B : Nat) (out : List Nat) :
    b32ddrain B 9 out = (1, out ++ [(B >>> 1) &&& 255]) := rfl
theorem b32ddrain10 (B : Nat) (out : List Nat) :
    b32ddrain B 10 out = (2, out ++ [(B >>> 2) &&& 255]) := rfl
theorem b32ddrain11 (B : Nat) (out : List Nat) :
    b32ddrain B 11 out = (3, out ++ [(B >>> 3) &&& 255]) := rfl
theorem b32ddrain12 (B : Nat) (out : List Nat) :
    b32ddrain B 12 out = (4, out ++ [(B >>> 4) &&& 255]) := rfl

theorem b32drain8 (B : Nat) (out : Text) :
    b32drain B 8 out = (3, out ++ [b32encChar ((B >>> 3) &&& 31)]) := rfl
theorem b32drain9 (B : Nat) (out : Text) :
    b32drain B 9 out = (4, out ++ [b32encChar ((B >>> 4) &&& 31)]) := rfl
theorem b32drain10 (B : Nat) (out : Text) :
    b32drain B 10 out
      = (0, (out ++ [b32encChar ((B >>> 5) &&& 31)]) ++ [b32encChar (B &&& 31)]) := rfl
theorem b32drain11 (B : Nat) (out : Text) :
    b32drain B 11 out
      = (1, (out ++ [b32encChar ((B >>> 6) &&& 31)]) ++ [b32encChar ((B >>> 1) &&& 31)]) := rfl
theorem b32drain12 (B : Nat) (out : Text) :
    b32drain B 12 out
      = (2, (out ++ [b32encChar ((B >>> 7) &&& 31)]) ++ [b32encChar ((B >>> 2) &&& 31)]) := rfl

theorem nshl1 (x : Nat) : x <<< 1 = x * 2 := by rw [Nat.shiftLeft_eq]
theorem nshl2 (x : Nat) : x <<< 2 = x * 4 := by rw [Nat.shiftLeft_eq]
theorem nshl3 (x : Nat) : x <<< 3 = x * 8 := by rw [Nat.shiftLeft_eq]
theorem nshl4 (x : Nat) : x <<< 4 = x * 16 := by rw [Nat.shiftLeft_eq]
theorem nshl5 (x : Nat) : x <<< 5 = x * 32 := by rw [Nat.shiftLeft_eq]
theorem nshl8 (x : Nat) : x <<< 8 = x * 256 := by rw [Nat.shiftLeft_eq]
theorem nshr1 (x : Nat) : x >>> 1 = x / 2 := by rw [Nat.shiftRight_eq_div_pow]
theorem nshr2 (x : Nat) : x >>> 2 = x / 4 := by rw [Nat.shiftRight_eq_div_pow]
theorem nshr3 (x : Nat) : x >>> 3 = x / 8 := by rw [Nat.shiftRight_eq_div_pow]
theorem nshr4 (x : Nat) : x >>> 4 = x / 16 := by rw [Nat.shiftRight_eq_div_pow]
theorem nshr5 (x : Nat) : x >>> 5 = x / 32 := by rw [Nat.shiftRight_eq_div_pow]
theorem nshr6 (x : Nat) : x >>> 6 = x / 64 := by rw [Nat.shiftRight_eq_div_pow]
theorem nshr7 (x : Nat) : x >>> 7 = x / 128 := by rw [Nat.shiftRight_eq_div_pow]

theorem b32_joint : ∀ (bs : List Nat) (ebuf ebits dbuf dbits : Nat) (dout : List Nat),
    ebits < 5 →
    ((ebits = 0 ∧ dbits = 0) ∨ (0 < ebits ∧ dbits = 8 - ebits)) →
    (∀ v ∈ bs, v < 256) →
    b32decodeGo (b32encodeGo bs ebuf ebits []) dbuf dbits dout
      = .ok (dout ++ (if ebits = 0 then []
          else [(dbuf % 2 ^ dbits) * 2 ^ ebits + ebuf % 2 ^ ebits]) ++ bs) := by
  intro bs
  induction bs with
  | nil =>
      intro ebuf ebits dbuf dbits dout h5 hinv _
      rcases hinv with ⟨he, hd⟩ | ⟨he, hd⟩
      · subst he; subst hd
        simp [b32encodeGo, b32decodeGo]
      · subst hd
        interval_cases ebits
        all_goals (
          simp only [b32encodeGo]
          rw [if_pos (by norm_num), List.nil_append]
          norm_num
          rw [b32decodeGo_cons_enc _ (and31_lt _)]
          norm_num)
        · rw [b32ddrain12]
          simp only [b32decodeGo]
          congr 3
          simp only [nat_and_31, nat_and_255, nshl4, nshl5, nshr4]
          omega
        · rw [b32ddrain11]
          simp only [b32decodeGo]
          congr 3
          simp only [nat_and_31, nat_and_255, nshl3, nshl5, nshr3]
          omega
        · rw [b32ddrain10]
          simp only [b32decodeGo]
          congr 3
          simp only [nat_and_31, nat_and_255, nshl2, nshl5, nshr2]
          omega
        · rw [b32ddrain9]
          simp only [b32decodeGo]
          congr 3
          simp only [nat_and_31, nat_and_255, nshl1, nshl5, nshr1]
          omega
  | cons v rest ih =>
      intro ebuf ebits dbuf dbits dout h5 hinv hb
      have hv : v < 256 := hb v (List.mem_cons_self _ _)
      have hrest : ∀ x ∈ rest, x < 256 := fun x hx => hb x (List.mem_cons_of_mem _ hx)
      rcases hinv with ⟨he, hd⟩ | ⟨he, hd⟩
      · subst he; subst hd
        simp only [b32encodeGo]
        norm_num
        rw [b32drain8]
        simp only [List.nil_append]
        rw [b32encodeGo_append]
        simp only [List.singleton_append, List.cons_append]
        rw [b32decodeGo_cons_enc _ (and31_lt _)]
        norm_num
        rw [b32ddrain5]
        simp only []
        rw [ih _ 3 _ 5 _ (by norm_num) (Or.inr (by norm_num)) hrest]
        norm_num
        all_goals simp only [nat_and_31, nat_and_255, nshl5, nshl8, nshr3]
        all_goals omega
      · subst hd
        interval_cases ebits
        · -- ebits = 1, dbits = 7
          simp only [b32encodeGo]
          norm_num
          rw [b32drain9]
          simp only [List.nil_append]
          rw [b32encodeGo_append]
          simp only [List.singleton_append, List.cons_append]
          rw [b32decodeGo_cons_enc _ (and31_lt _)]
          norm_num
          rw [b32ddrain12]
          simp only []
          rw [ih _ 4 _ 4 _ (by norm_num) (Or.inr (by norm_num)) hrest]
          norm_num
          all_goals simp only [nat_and_31, nat_and_255, nshl5, nshl8, nshr4]
          all_goals omega
        · -- ebits = 2, dbits = 6
          simp only [b32encodeGo]
          norm_num
          rw [b32drain10]
          simp only [List.nil_append]
          rw [b32encodeGo_append]
          simp only [List.append_assoc, List.singleton_append, List.cons_append]
          rw [b32decodeGo_cons_enc _ (and31_lt _)]
          norm_num
          rw [b32ddrain11]
          simp only []
          rw [b32decodeGo_cons_enc _ (and31_lt _)]
          norm_num
          rw [b32ddrain8]
          simp only []
          rw [ih _ 0 _ 0 _ (by norm_num) (Or.inl (by norm_num)) hrest]
          norm_num
          all_goals simp only [nat_and_31, nat_and_255, nshl5, nshl8, nshr3, nshr5]
          all_goals omega
        · -- ebits = 3, dbits = 5
          simp only [b32encodeGo]
          norm_num
          rw [b32drain11]
          simp only [List.nil_append]
          rw [b32encodeGo_append]
          simp only [List.append_assoc, List.singleton_append, List.cons_append]
          rw [b32decodeGo_cons_enc _ (and31_lt _)]
          norm_num
          rw [b32ddrain10]
          simp only []
          rw [b32decodeGo_cons_enc _ (and31_lt _)]
          norm_num
          rw [b32ddrain7]
          simp only []
          rw [ih _ 1 _ 7 _ (by norm_num) (Or.inr (by norm_num)) hrest]
          norm_num
          all_goals simp only [nat_and_31, nat_and_255, nshl5, nshl8, nshr1, nshr2, nshr6]
          all_goals omega
        · -- ebits = 4, dbits = 4
          simp only [b32encodeGo]
          norm_num
          rw [b32drain12]
          simp only [List.nil_append]
          rw [b32encodeGo_append]
          simp only [List.append_assoc, List.singleton_append, List.cons_append]
          rw [b32decodeGo_cons_enc _ (and31_lt _)]
          norm_num
          rw [b32ddrain9]
          simp only []
          rw [b32decodeGo_cons_enc _ (and31_lt _)]
          norm_num
          rw [b32ddrain6]
          simp only []
          rw [ih _ 2 _ 6 _ (by norm_num) (Or.inr (by norm_num)) hrest]
          norm_num
          all_goals simp only [nat_and_31, nat_and_255, nshl5, nshl8, nshr1, nshr2, nshr7]
          all_goals omega

/-- C4: decoding an encoding recovers the original bytes, the encoder
emits only characters of the 32-symbol alphabet (never padding), and
both functions map empty input to empty output. -/
theorem base32_round_trip (b : List Nat) (hb : ∀ x ∈ b, x < 256) :
    base32_decode (some (base32_encode (some b))) = .ok b ∧
    (∀ c ∈ base32_encode (some b), c ∈ b32alphabet) ∧
    base32_encode (some ([] : List Nat)) = [] ∧
    base32_decode (some ([] : Text)) = .ok [] := by
  refine ⟨?_, ?_, rfl, rfl⟩
  · cases b with
    | nil => rfl
    | cons v rest =>
        have henc : base32_encode (some (v :: rest)) = b32encodeGo (v :: rest) 0 0 [] := by
          simp [base32_encode]
        have hchars : ∀ c ∈ b32encodeGo (v :: rest) 0 0 [], ∃ n, n < 32 ∧ c = b32encChar n :=
          b32encodeGo_chars _ 0 0 [] (by simp)
        have hclean : b32clean (b32encodeGo (v :: rest) 0 0 [])
            = b32encodeGo (v :: rest) 0 0 [] :=
          b32clean_of_enc _ hchars
        rw [henc]
        unfold base32_decode
        simp only [Option.getD_some, hclean]
        have hj := b32_joint (v :: rest) 0 0 0 0 [] (by norm_num) (Or.inl ⟨rfl, rfl⟩) hb
        by_cases hne : b32encodeGo (v :: rest) 0 0 [] = []
        · rw [hne] at hj
          simp only [b32decodeGo] at hj
          exact absurd hj (by simp)
        · rw [if_neg hne, hj]
          simp
  · intro c hc
    cases b with
    | nil => simp [base32_encode] at hc
    | cons v rest =>
        have henc : base32_encode (some (v :: rest)) = b32encodeGo (v :: rest) 0 0 [] := by
          simp [base32_encode]
        rw [henc] at hc
        obtain ⟨n, hn, rfl⟩ := b32encodeGo_chars _ 0 0 [] (by simp) c hc
        exact encChar_mem_alphabet n hn

/-- Witness for C4: a concrete 7-byte string survives the round trip. -/
theorem base32_round_trip_witness :
    base32_decode (some (base32_encode (some [222, 173, 190, 239, 0, 255, 1])))
      = .ok [222, 173, 190, 239, 0, 255, 1] :=
  (base32_round_trip [222, 173, 190, 239, 0, 255, 1] (by decide)).1

theorem nat_and_15 (x : Nat) : x &&& 15 = x % 16 := by
  have := Nat.and_pow_two_sub_one_eq_mod x 4
  norm_num at this
  exact this

theorem nat_and_2p31 (x : Nat) : x &&& 2147483647 = x % 2147483648 := by
  have := Nat.and_pow_two_sub_one_eq_mod x 31
  norm_num at this
  exact this

theorem getD_lt_256 (l : List Nat) (hl : ∀ b ∈ l, b < 256) (i : Nat) :
    l.getD i 0 < 256 := by
  rcases Nat.lt_or_ge i l.length with h | h
  · rw [List.getD_eq_getElem l 0 h]
    exact hl _ (List.getElem_mem h)
  · rw [List.getD_eq_default l 0 h]
    norm_num

theorem slice_eq (b0 b1 b2 b3 : Nat)
    (h0 : b0 < 256) (h1 : b1 < 256) (h2 : b2 < 256) (h3 : b3 < 256) :
    (((b0 &&& 255) <<< 24) ||| ((b1 &&& 255) <<< 16) ||| ((b2 &&& 255) <<< 8)
        ||| (b3 &&& 255)) &&& 2147483647
      = (b0 % 128) * 2 ^ 24 + b1 * 2 ^ 16 + b2 * 2 ^ 8 + b3 := by
  have e0 : b0 &&& 255 = b0 := by rw [nat_and_255]; exact Nat.mod_eq_of_lt h0
  have e1 : b1 &&& 255 = b1 := by rw [nat_and_255]; exact Nat.mod_eq_of_lt h1
  have e2 : b2 &&& 255 = b2 := by rw [nat_and_255]; exact Nat.mod_eq_of_lt h2
  have e3 : b3 &&& 255 = b3 := by rw [nat_and_255]; exact Nat.mod_eq_of_lt h3
  rw [e0, e1, e2, e3, Nat.shiftLeft_eq, Nat.shiftLeft_eq, Nat.shiftLeft_eq]
  have t1 : b0 * 2 ^ 24 ||| b1 * 2 ^ 16 = 2 ^ 24 * b0 + b1 * 2 ^ 16 := by
    rw [Nat.mul_comm b0 (2 ^ 24)]
    exact (Nat.mul_add_lt_is_or (by norm_num; omega) b0).symm
  rw [t1]
  rw [show 2 ^ 24 * b0 + b1 * 2 ^ 16 = 2 ^ 16 * (2 ^ 8 * b0 + b1) by ring]
  have t2 : 2 ^ 16 * (2 ^ 8 * b0 + b1) ||| b2 * 2 ^ 8
      = 2 ^ 16 * (2 ^ 8 * b0 + b1) + b2 * 2 ^ 8 :=
    (Nat.mul_add_lt_is_or (by norm_num; omega) _).symm
  rw [t2]
  rw [show 2 ^ 16 * (2 ^ 8 * b0 + b1) + b2 * 2 ^ 8
      = 2 ^ 8 * (2 ^ 16 * b0 + 2 ^ 8 * b1 + b2) by ring]
  have t3 : 2 ^ 8 * (2 ^ 16 * b0 + 2 ^ 8 * b1 + b2) ||| b3
      = 2 ^ 8 * (2 ^ 16 * b0 + 2 ^ 8 * b1 + b2) + b3 :=
    (Nat.mul_add_lt_is_or (by omega) _).symm
  rw [t3, nat_and_2p31]
  norm_num
  omega

theorem totp_code_eq_rfc6238 (hmac : List Nat → List Nat → List Nat)
    (hlen : ∀ m k, (hmac m k).length = 20)
    (hbyte : ∀ m k, ∀ b ∈ hmac m k, b < 256)
    (sb : List Nat) (counter : Int) :
    admin_totp_code hmac sb counter = rfc6238_code hmac sb counter := by
  simp only [admin_totp_code, rfc6238_code]
  have h20 := hlen (int8_to_bytea counter) sb
  have hb := hbyte (int8_to_bytea counter) sb
  rw [h20, nat_and_15, show (20 : Nat) - 1 = 19 from rfl]
  rw [slice_eq _ _ _ _ (getD_lt_256 _ hb _) (getD_lt_256 _ hb _)
    (getD_lt_256 _ hb _) (getD_lt_256 _ hb _)]

/-- C1: with the (20-byte, byte-valued) HMAC-SHA1 oracle,
`admin_totp_is_valid(secret, code, 1)` accepts exactly the candidates
whose trimmed text equals the RFC 6238 reference value at counter
`floor(now / 30) + off` for some `off` in `{-1, 0, +1}`, provided the
secret decodes to a non-empty byte string and the candidate is not
blank; a code computed at offset `+2` or `-2` that differs from all
three in-window values is rejected; and a null secret, null candidate,
blank candidate, or empty-decoding secret yields `false`. -/
theorem totp_window_characterization
    (hmac : List Nat → List Nat → List Nat)
    (hlen : ∀ m k, (hmac m k).length = 20)
    (hbyte : ∀ m k, ∀ b ∈ hmac m k, b < 256)
    (now : Nat) (s c : Text) :
    (admin_totp_is_valid hmac now (some s) (some c) 1 = true ↔
      (b32decodeOk (some s) ≠ [] ∧ pgTrim c ≠ [] ∧
        ∃ off : Int, (off = -1 ∨ off = 0 ∨ off = 1) ∧
          pgTrim c = rfc6238_code hmac (b32decodeOk (some s))
            (((now / 30 : Nat) : Int) + off))) ∧
    (∀ off2 : Int, (off2 = 2 ∨ off2 = -2) →
      pgTrim c = rfc6238_code hmac (b32decodeOk (some s)) (((now / 30 : Nat) : Int) + off2) →
      (∀ off1 : Int, (off1 = -1 ∨ off1 = 0 ∨ off1 = 1) →
        rfc6238_code hmac (b32decodeOk (some s)) (((now / 30 : Nat) : Int) + off2)
          ≠ rfc6238_code hmac (b32decodeOk (some s)) (((now / 30 : Nat) : Int) + off1)) →
      admin_totp_is_valid hmac now (some s) (some c) 1 = false) ∧
    admin_totp_is_valid hmac now none (some c) 1 = false ∧
    admin_totp_is_valid hmac now (some s) none 1 = false ∧
    (pgTrim c = [] → admin_totp_is_valid hmac now (some s) (some c) 1 = false) ∧
    (b32decodeOk (some s) = [] → admin_totp_is_valid hmac now (some s) (some c) 1 = false) := by
  have hiff : admin_totp_is_valid hmac now (some s) (some c) 1 = true ↔
      (b32decodeOk (some s) ≠ [] ∧ pgTrim c ≠ [] ∧
        ∃ off : Int, (off = -1 ∨ off = 0 ∨ off = 1) ∧
          pgTrim c = rfc6238_code hmac (b32decodeOk (some s))
            (((now / 30 : Nat) : Int) + off)) := by
    simp only [admin_totp_is_valid]
    by_cases htrim : pgTrim c = []
    · rw [if_pos htrim]
      simp [htrim]
    · rw [if_neg htrim]
      by_cases hsec : (b32decodeOk (some s)).length = 0
      · rw [if_pos hsec]
        simp [htrim, List.length_eq_zero.mp hsec]
      · rw [if_neg hsec]
        have hnil : b32decodeOk (some s) ≠ [] := by
          intro hnil
          exact hsec (by rw [hnil]; rfl)
        have hlist : ((List.range (2 * 1 + 1)).map
            (fun k => -((1 : Nat) : Int) + (k : Int))) = [-1, 0, 1] := by decide
        rw [hlist]
        simp only [List.any_cons, List.any_nil, Bool.or_eq_true, Bool.or_false,
          beq_iff_eq]
        rw [totp_code_eq_rfc6238 hmac hlen hbyte, totp_code_eq_rfc6238 hmac hlen hbyte,
          totp_code_eq_rfc6238 hmac hlen hbyte]
        constructor
        · rintro (h | h | h)
          · exact ⟨hnil, htrim, -1, Or.inl rfl, h.symm⟩
          · exact ⟨hnil, htrim, 0, Or.inr (Or.inl rfl), h.symm⟩
          · exact ⟨hnil, htrim, 1, Or.inr (Or.inr rfl), h.symm⟩
        · rintro ⟨-, -, off, (rfl | rfl | rfl), heq⟩
          · exact Or.inl heq.symm
          · exact Or.inr (Or.inl heq.symm)
          · exact Or.inr (Or.inr heq.symm)
  refine ⟨hiff, ?_, rfl, rfl, ?_, ?_⟩
  · intro off2 hoff2 heq hne
    cases hval : admin_totp_is_valid hmac now (some s) (some c) 1 with
    | false => rfl
    | true =>
        obtain ⟨-, -, off1, hoff1, heq1⟩ := hiff.mp hval
        exact absurd (heq.symm.trans heq1) (hne off1 hoff1)
  · intro htrim
    simp only [admin_totp_is_valid]
    rw [if_pos htrim]
  · intro hsec
    simp only [admin_totp_is_valid]
    by_cases htrim : pgTrim c = []
    · rw [if_pos htrim]
    · rw [if_neg htrim, if_pos (by rw [hsec]; rfl)]

set_option maxRecDepth 10000 in
/-- Witness for C1: with the constant all-zero 20-byte digest oracle the
reference code at time 0 is `000000`, and validation accepts it. -/
theorem totp_window_characterization_witness :
    admin_totp_is_valid hmacW 0 (some ('A' :: 'A' :: [])) (some "000000".toList) 1
      = true := by
  refine (totp_window_characterization hmacW (fun m k => rfl) ?_ 0 _ _).1.mpr
    ⟨by decide, by decide, 0, Or.inr (Or.inl rfl), by decide⟩
  intro m k b hb
  rw [List.eq_of_mem_replicate hb]
  norm_num
